import Mathlib

/-
Shallow embedding of `gaspy/vasp_functions.py`.

The module orchestrates VASP relaxations for FireWorks rockets.  Pure
Python values are modelled directly: a Python dict is an association
list whose operations mimic dict assignment (replace in place, else
append), lookup (`KeyError` becomes `Option`/`Except Err`) and `del`.
The process environment `os.environ` and the file system are threaded
explicitly through a state record `St`.  Everything the module
delegates to external libraries (the VASP calculator run parsed from
`vasprun.xml`, the ASE BFGS optimizer, the binary `.traj`
serialization format, Python's `int(float(s))` parse and `str(atoms)`)
is a parameter gathered in the `Engine` structure, so the theorems
quantify over every possible behaviour of the external engine.
Fallible Python code returns `Except Err`.
-/

namespace Gaspy

/-! ## Scalars and geometry

Cell vectors are modelled over `ℚ`.  `numpy.cross` and `numpy.dot`
on 3-vectors become `cross3` and `dot3`. -/

abbrev Vec3 := ℚ × ℚ × ℚ

/-- Model of `numpy.cross` on 3-vectors. -/
def cross3 (a b : Vec3) : Vec3 :=
  (a.2.1 * b.2.2 - a.2.2 * b.2.1,
   a.2.2 * b.1 - a.1 * b.2.2,
   a.1 * b.2.1 - a.2.1 * b.1)

/-- Model of `numpy.dot` on 3-vectors. -/
def dot3 (a b : Vec3) : ℚ :=
  a.1 * b.1 + a.2.1 * b.2.1 + a.2.2 * b.2.2

/-- A 3x3 unit cell: three row vectors, as in `atoms.cell`. -/
abbrev Cell := Vec3 × Vec3 × Vec3

/-- The scalar triple product of the cell rows,
`np.dot(np.cross(atoms.cell[0], atoms.cell[1]), atoms.cell[2])`. -/
def tripleProd (c : Cell) : ℚ :=
  dot3 (cross3 c.1 c.2.1) c.2.2

/-- The right-hand-rule fix from `_clean_up_vasp_inputs`: if the triple
product of the cell rows is negative, reindex the rows as `[1, 0, 2]`
(swap the first two rows, keep the third); otherwise leave the cell
untouched. -/
def fixCell (c : Cell) : Cell :=
  if tripleProd c < 0 then (c.2.1, c.1, c.2.2) else c

/-! ## Python dict and values -/

/-- A value stored in the `vasp_flags` dict: a string (for keys such as
`pp`, `pp_version`, `xc`) or a number (for keys such as `ediffg`,
`ibrion`, `nsw`, `ncore`, `kpar`). -/
inductive VaspValue where
  | str : String → VaspValue
  | num : ℚ → VaspValue
deriving DecidableEq, Repr

/-- Python `str(·)` on a flag value, as used on `pp_version`. -/
def VaspValue.toStr : VaspValue → String
  | .str s => s
  | .num q => toString q

/-- Python `str.lower()`: lower-case every character. -/
def strLower (s : String) : String :=
  ⟨s.data.map Char.toLower⟩

/-- Lookup in a Python dict modelled as an association list:
`d[k]` (the `Option.none` case is a `KeyError`). -/
def getKV {α : Type} : List (String × α) → String → Option α
  | [], _ => none
  | (k', v') :: rest, k => if k' = k then some v' else getKV rest k

/-- Python dict assignment `d[k] = v`: replace the value of an existing
key in place, otherwise append the new pair at the end. -/
def setKV {α : Type} : List (String × α) → String → α → List (String × α)
  | [], k, v => [(k, v)]
  | (k', v') :: rest, k, v =>
    if k' = k then (k, v) :: rest else (k', v') :: setKV rest k v

/-- Python `del d[k]`: drop the (first) binding of `k`. -/
def delKV {α : Type} : List (String × α) → String → List (String × α)
  | [], _ => []
  | (k', v') :: rest, k =>
    if k' = k then rest else (k', v') :: delKV rest k

/-- A Python dict has no duplicate keys; association lists standing for
dicts satisfy this invariant. -/
def NodupKeys {α : Type} (l : List (String × α)) : Prop :=
  (l.map Prod.fst).Nodup

instance {α : Type} (l : List (String × α)) : Decidable (NodupKeys l) := by
  unfold NodupKeys; infer_instance

/-- The `vasp_flags` dictionary. -/
abbrev Flags := List (String × VaspValue)

/-- Model of `os.environ`: string-to-string mapping. -/
abbrev Env := List (String × String)

/-! ## Atoms, errors, state -/

/-- An `ase.Atoms` object at the granularity the module observes: its
unit cell, the list of constraint kinds (`constraint.todict()["name"]`
for each entry of `atoms.constraints`), its potential energy (what
`get_potential_energy()` reports for a snapshot) and a tag
distinguishing atomic configurations. -/
structure Atoms where
  cell : Cell
  constraints : List String
  energy : ℚ
  tag : Nat
deriving DecidableEq, Repr

/-- Files holding `ase` images (trajectories and structure files). -/
abbrev FS := List (String × List Atoms)

/-- Files holding raw bytes (for the hex transport layer). -/
abbrev ByteFS := List (String × List Nat)

/-- Python exceptions the module can surface. -/
inductive Err where
  | keyError : String → Err
  | attributeError : Err
  | indexError : Err
  | osError : Err
  | binasciiError : Err
deriving DecidableEq, Repr

/-- Which relaxation driver ran, and (for the ASE driver) the `fmax`
threshold handed to `optimizer.run`. -/
inductive DriverCall where
  | vasp : DriverCall
  | ase : VaspValue → DriverCall
deriving DecidableEq, Repr

/-- Process state threaded through the module: the environment, the
image-file system, and a trace of driver invocations. -/
structure St where
  env : Env
  fs : FS
  calls : List DriverCall
deriving DecidableEq, Repr

/-- Everything delegated to external libraries.  `intFloat` is
Python's `int(float(s))`; `vaspTraj` is the list of SPC-wrapped,
resorted snapshots `_relax_with_vasp` reads back from `vasprun.xml`
after the calculator run; `aseRun` is the BFGS run of
`_relax_with_ase`, returning the trajectory it records and the final
state of the atoms object; `serializeTraj` is the binary `.traj`
encoding of a list of images; `strRepr` is Python `str(atoms)`. -/
structure Engine where
  intFloat : String → Except Err Int
  vaspTraj : Atoms → Flags → List Atoms
  aseRun : Atoms → Flags → VaspValue → List Atoms × Atoms
  serializeTraj : List Atoms → List Nat
  strRepr : Atoms → String

/-- ASE's documented optimizer behaviour: after `optimizer.run`, the
atoms object is in the state recorded as the last snapshot of the
trajectory file. -/
def AseFinalIsLast (E : Engine) : Prop :=
  ∀ a f m, ((E.aseRun a f m).1).getLast? = some ((E.aseRun a f m).2)

/-! ## Hex transport (`binascii.hexlify` / `binascii.unhexlify`) -/

/-- Lower-case hex digit for `n < 16`, as produced by
`binascii.hexlify`. -/
def hexDigitChar (n : Nat) : Char :=
  if n < 10 then Char.ofNat (48 + n) else Char.ofNat (87 + n)

/-- Value of a hex digit character; `binascii.unhexlify` accepts both
cases and raises `binascii.Error` on anything else. -/
def hexDigitVal (c : Char) : Option Nat :=
  if 48 ≤ c.toNat ∧ c.toNat ≤ 57 then some (c.toNat - 48)
  else if 97 ≤ c.toNat ∧ c.toNat ≤ 102 then some (c.toNat - 87)
  else if 65 ≤ c.toNat ∧ c.toNat ≤ 70 then some (c.toNat - 55)
  else none

/-- Model of `binascii.hexlify`: each byte becomes two lower-case hex digits. -/
def hexlify : List Nat → List Char
  | [] => []
  | b :: rest => hexDigitChar (b / 16) :: hexDigitChar (b % 16) :: hexlify rest

/-- Model of `binascii.unhexlify`: parse pairs of hex digits back into bytes;
odd length or a non-hex character raises `binascii.Error` (`none`). -/
def unhexlify : List Char → Option (List Nat)
  | [] => some []
  | [_] => none
  | c1 :: c2 :: rest =>
    match hexDigitVal c1, hexDigitVal c2, unhexlify rest with
    | some hi, some lo, some bs => some ((16 * hi + lo) :: bs)
    | _, _, _ => none

/-- Embedding of `hex_to_file`: `open(file_name, 'wb')` truncates (or creates) the
file first; then the hex string is decoded and the raw bytes written
verbatim. -/
def hex_to_file (file_name : String) (hex : List Char) (bfs : ByteFS) :
    Except Err ByteFS :=
  let bfs0 := setKV bfs file_name []
  match unhexlify hex with
  | none => .error .binasciiError
  | some bs => .ok (setKV bfs0 file_name bs)

/-- Embedding of `atoms_to_hex`: write the atoms object to a uniquely named
temporary file (`tmpName` stands for the `uuid`-derived name), read its
raw bytes, hex-encode them, then delete the temporary file.  The
deletion sits in a `try ... except OSError: pass` block: when
`os.remove` raises `OSError` (`removeFails = true`) the error is
swallowed, the file is simply left behind, and the hex string is still
returned. -/
def atoms_to_hex (E : Engine) (atoms : Atoms) (tmpName : String)
    (removeFails : Bool) (bfs : ByteFS) : Except Err (List Char × ByteFS) :=
  let bfs1 := setKV bfs tmpName (E.serializeTraj [atoms])
  match getKV bfs1 tmpName with
  | none => .error .osError
  | some bytes =>
    let hex := hexlify bytes
    let bfs2 := if removeFails then bfs1 else delKV bfs1 tmpName
    .ok (hex, bfs2)

/-! ## Input normalization (`_clean_up_vasp_inputs`) -/

/-- The pseudopotential-family resolution step: `vasp_flags["pp"]`
(`KeyError` if absent, `AttributeError` if `.lower()` is called on a
number), then set `xc` to `"lda"` or `"PBE"` when the family is
recognized, case-insensitively; any other family falls through both
branches with the flags untouched. -/
def resolve_xc (flags : Flags) : Except Err Flags :=
  match getKV flags "pp" with
  | none => .error (.keyError "pp")
  | some (.num _) => .error .attributeError
  | some (.str s) =>
    if strLower s = "lda" then .ok (setKV flags "xc" (.str "lda"))
    else if strLower s = "pbe" then .ok (setKV flags "xc" (.str "PBE"))
    else .ok flags

/-- Embedding of `_clean_up_vasp_inputs`: fix the cell handedness, resolve the
pseudopotential family into `xc`, read `vasp_flags["pp_version"]`,
build `VASP_PP_PATH` from `VASP_PP_BASE` (reading the right-hand side
first, so a missing base is a `KeyError` before any environment
write), store it in the environment, and delete `pp_version` from the
flags. -/
def clean_up_vasp_inputs (atoms : Atoms) (flags : Flags) (env : Env) :
    Except Err (Atoms × Flags × Env) :=
  let atoms1 : Atoms := { atoms with cell := fixCell atoms.cell }
  match resolve_xc flags with
  | .error e => .error e
  | .ok flags1 =>
    match getKV flags1 "pp_version" with
    | none => .error (.keyError "pp_version")
    | some v =>
      match getKV env "VASP_PP_BASE" with
      | none => .error (.keyError "VASP_PP_BASE")
      | some b =>
        let env1 := setKV env "VASP_PP_PATH" (b ++ "/" ++ v.toStr ++ "/")
        .ok (atoms1, delKV flags1 "pp_version", env1)

/-! ## Drivers and orchestration -/

/-- The constraint kinds VASP can handle natively
(`allowable_constraints = {"FixAtoms"}`). -/
def allowable_constraints : List String := ["FixAtoms"]

/-- The detection loop of `_perform_relaxation`: `vasp_compatible`
starts `True` and is cleared (with a `break`) at the first constraint
whose declared name is outside the allow-list. -/
def vaspCompatible (cs : List String) : Bool :=
  cs.all (fun c => allowable_constraints.contains c)

/-- The `fmax` handed to `optimizer.run` in `_relax_with_ase`:
`vasp_flags["ediffg"] if "ediffg" in vasp_flags else 0.05`. -/
def aseFmax (flags : Flags) : VaspValue :=
  match getKV flags "ediffg" with
  | some v => v
  | none => .num (1 / 20)

/-- Embedding of `_relax_with_ase`: set `ibrion` to 2 and `nsw` to 0, run BFGS with
the trajectory written to `all.traj` (ASE opens a string trajectory in
write mode, replacing the file) and the `fmax` above, and return the
atoms object in its final state. -/
def relax_with_ase (E : Engine) (atoms : Atoms) (flags : Flags) (st : St) :
    Atoms × St :=
  let flags1 := setKV flags "ibrion" (.num 2)
  let flags2 := setKV flags1 "nsw" (.num 0)
  let fmax := aseFmax flags2
  let r := E.aseRun atoms flags2 fmax
  (r.2, { st with fs := setKV st.fs "all.traj" r.1,
                  calls := st.calls ++ [DriverCall.ase fmax] })

/-- Append images to a trajectory file, as `TrajectoryWriter(f, 'a')`
does: create the file when missing, extend it otherwise. -/
def appendTraj (fs : FS) (fname : String) (imgs : List Atoms) : FS :=
  match getKV fs fname with
  | none => setKV fs fname imgs
  | some old => setKV fs fname (old ++ imgs)

/-- Embedding of `_relax_with_vasp`: run the calculator, read the snapshots back
from `vasprun.xml` (resorted and SPC-wrapped: `E.vaspTraj`), append
them all to `all.traj`, and return `images[-1]` (an `IndexError` if
the engine produced no snapshot). -/
def relax_with_vasp (E : Engine) (atoms : Atoms) (flags : Flags) (st : St) :
    Except Err (Atoms × St) :=
  let images := E.vaspTraj atoms flags
  let st1 : St := { st with fs := appendTraj st.fs "all.traj" images,
                            calls := st.calls ++ [DriverCall.vasp] }
  match images.getLast? with
  | none => .error .indexError
  | some last => .ok (last, st1)

/-- One `if 'NCORE' in os.environ: vasp_flags['ncore'] = int(float(...))`
step of `_perform_relaxation` (and likewise for `KPAR`). -/
def envIntFlag (E : Engine) (flags : Flags) (env : Env)
    (envKey flagKey : String) : Except Err Flags :=
  match getKV env envKey with
  | none => .ok flags
  | some s =>
    match E.intFloat s with
    | .error e => .error e
    | .ok n => .ok (setKV flags flagKey (.num (n : ℚ)))

/-- The tail of `_perform_relaxation`: save the final image to
`fname_out` and return it. -/
def finish_relaxation (fname_out : String) (r : Atoms × St) : Atoms × St :=
  (r.1, { r.2 with fs := setKV r.2.fs fname_out [r.1] })

/-- Embedding of `_perform_relaxation`: clean up the inputs, fold in the `NCORE` and
`KPAR` environment hints, pick the driver from the constraint check,
run it, write the final image to `fname_out`, and return it. -/
def perform_relaxation (E : Engine) (atoms : Atoms) (flags : Flags)
    (fname_out : String) (st : St) : Except Err (Atoms × St) :=
  match clean_up_vasp_inputs atoms flags st.env with
  | .error e => .error e
  | .ok (atoms1, flags1, env1) =>
    let st1 : St := { st with env := env1 }
    match envIntFlag E flags1 env1 "NCORE" "ncore" with
    | .error e => .error e
    | .ok flags2 =>
      match envIntFlag E flags2 env1 "KPAR" "kpar" with
      | .error e => .error e
      | .ok flags3 =>
        match (if vaspCompatible atoms1.constraints then
                 relax_with_vasp E atoms1 flags3 st1
               else
                 .ok (relax_with_ase E atoms1 flags3 st1)) with
        | .error e => .error e
        | .ok r => .ok (finish_relaxation fname_out r)

/-- Embedding of `runVasp`: read the input structure (`ase.io.read` returns the last
image of the file), perform the relaxation, hex-encode the bytes of
`all.traj`, and return the string form of the atoms, the trajectory
hex, and the final image's potential energy. -/
def runVasp (E : Engine) (fname_in fname_out : String) (flags : Flags)
    (st : St) : Except Err ((String × List Char × ℚ) × St) :=
  match getKV st.fs fname_in with
  | none => .error .osError
  | some imgs =>
    match imgs.getLast? with
    | none => .error .indexError
    | some atoms =>
      match perform_relaxation E atoms flags fname_out st with
      | .error e => .error e
      | .ok pr =>
        let atoms_str := E.strRepr atoms
        match getKV pr.2.fs "all.traj" with
        | none => .error .osError
        | some traj =>
          let traj_hex := hexlify (E.serializeTraj traj)
          .ok ((atoms_str, traj_hex, pr.1.energy), pr.2)

/-! ## Dictionary lemmas -/

theorem getKV_setKV_self {α : Type} : ∀ (l : List (String × α)) (k : String) (v : α),
    getKV (setKV l k v) k = some v
  | [], k, v => by simp [setKV, getKV]
  | (k', v') :: rest, k, v => by
    by_cases h : k' = k
    · simp [setKV, getKV, h]
    · simp [setKV, getKV, h, getKV_setKV_self rest k v]

theorem getKV_setKV_ne {α : Type} : ∀ (l : List (String × α)) (k k' : String) (v : α),
    k' ≠ k → getKV (setKV l k v) k' = getKV l k'
  | [], k, k', v, h => by
    simp [setKV, getKV, Ne.symm h]
  | (a, b) :: rest, k, k', v, h => by
    by_cases ha : a = k
    · subst ha
      simp [setKV, getKV, Ne.symm h]
    · simp only [setKV, getKV, if_neg ha]
      by_cases ha' : a = k'
      · simp [getKV, ha']
      · simp [getKV, ha', getKV_setKV_ne rest k k' v h]

theorem getKV_delKV_ne {α : Type} : ∀ (l : List (String × α)) (k k' : String),
    k' ≠ k → getKV (delKV l k) k' = getKV l k'
  | [], k, k', h => rfl
  | (a, b) :: rest, k, k', h => by
    by_cases ha : a = k
    · subst ha
      simp [delKV, getKV, Ne.symm h]
    · simp [delKV, getKV, ha, getKV_delKV_ne rest k k' h]

theorem getKV_eq_none_of_not_mem {α : Type} :
    ∀ (l : List (String × α)) (k : String), k ∉ l.map Prod.fst → getKV l k = none
  | [], k, _ => rfl
  | (a, b) :: rest, k, h => by
    simp only [List.map_cons, List.mem_cons] at h
    push_neg at h
    simp [getKV, Ne.symm h.1, getKV_eq_none_of_not_mem rest k h.2]

theorem getKV_delKV_self {α : Type} : ∀ (l : List (String × α)) (k : String),
    NodupKeys l → getKV (delKV l k) k = none
  | [], k, _ => rfl
  | (a, b) :: rest, k, h => by
    simp only [NodupKeys, List.map_cons, List.nodup_cons] at h
    by_cases ha : a = k
    · subst ha
      simpa [delKV] using getKV_eq_none_of_not_mem rest a h.1
    · simp [delKV, getKV, ha, getKV_delKV_self rest k h.2]

/-! ## Hex codec lemmas -/

theorem hexDigitVal_hexDigitChar : ∀ d < 16, hexDigitVal (hexDigitChar d) = some d := by
  decide

theorem unhexlify_hexlify : ∀ (bs : List Nat), (∀ b ∈ bs, b < 256) →
    unhexlify (hexlify bs) = some bs
  | [], _ => rfl
  | b :: rest, h => by
    have hb : b < 256 := h b (by simp)
    have h1 : b / 16 < 16 := Nat.div_lt_of_lt_mul hb
    have h2 : b % 16 < 16 := Nat.mod_lt b (by norm_num)
    have ih := unhexlify_hexlify rest (fun x hx => h x (by simp [hx]))
    simp [hexlify, unhexlify, hexDigitVal_hexDigitChar _ h1,
      hexDigitVal_hexDigitChar _ h2, ih, Nat.div_add_mod]

/-! ## Claims -/

/-- Claim C2: the normalization step on the cell leaves the third row
unchanged and swaps the first two rows exactly when the triple product
of the rows is negative (otherwise it is a no-op), and the resulting
cell always has a non-negative triple product. -/
theorem fixCell_spec (c : Cell) :
    fixCell c = (if tripleProd c < 0 then (c.2.1, c.1, c.2.2) else c) ∧
    0 ≤ tripleProd (fixCell c) := by
  constructor
  · rfl
  · unfold fixCell
    split_ifs with h
    · obtain ⟨⟨a1, a2, a3⟩, ⟨b1, b2, b3⟩, ⟨d1, d2, d3⟩⟩ := c
      simp only [tripleProd, dot3, cross3] at h ⊢
      nlinarith [h]
    · linarith

/-- Claim C3: decoding the hex string produced by encoding a byte
sequence and writing it to a path stores exactly the original bytes at
that path (unhexlify after hexlify is the identity on bytes). -/
theorem hex_roundtrip_writes_original (x : List Nat) (hx : ∀ b ∈ x, b < 256)
    (f : String) (bfs : ByteFS) :
    ∃ bfs', hex_to_file f (hexlify x) bfs = .ok bfs' ∧ getKV bfs' f = some x := by
  refine ⟨setKV (setKV bfs f []) f x, ?_, ?_⟩
  · simp [hex_to_file, unhexlify_hexlify x hx]
  · exact getKV_setKV_self _ f x

theorem hex_roundtrip_writes_original_witness :
    (∀ b ∈ [0, 171, 255], b < 256) ∧
    (∃ bfs', hex_to_file "out.traj" (hexlify [0, 171, 255]) [] = .ok bfs' ∧
      getKV bfs' "out.traj" = some [0, 171, 255]) :=
  ⟨by decide, hex_roundtrip_writes_original [0, 171, 255] (by decide) "out.traj" []⟩

/-- Claim C8: when deleting the temporary file raises `OSError`, the
error is swallowed and `atoms_to_hex` still returns (with no error)
the hex encoding of the bytes that were written for the atoms
object. -/
theorem atoms_to_hex_swallows_remove_error (E : Engine) (atoms : Atoms)
    (tmpName : String) (bfs : ByteFS) :
    ∃ bfs', atoms_to_hex E atoms tmpName true bfs =
      .ok (hexlify (E.serializeTraj [atoms]), bfs') := by
  refine ⟨setKV bfs tmpName (E.serializeTraj [atoms]), ?_⟩
  simp [atoms_to_hex, getKV_setKV_self]

/-- Claim C9: when the `pp` flag is a string that is, case-insensitively,
neither `lda` nor `pbe`, the pseudopotential-family resolution step
raises no error and returns the flags completely unchanged (in
particular any `xc` entry is untouched). -/
theorem resolve_xc_unrecognized (flags : Flags) (s : String)
    (h1 : getKV flags "pp" = some (.str s))
    (h2 : strLower s ≠ "lda") (h3 : strLower s ≠ "pbe") :
    resolve_xc flags = .ok flags := by
  simp [resolve_xc, h1, h2, h3]

theorem resolve_xc_unrecognized_witness :
    resolve_xc [("pp", VaspValue.str "PW91")] = .ok [("pp", VaspValue.str "PW91")] :=
  resolve_xc_unrecognized _ "PW91" (by decide) (by decide) (by decide)

/-! ## More dictionary lemmas -/

theorem mem_keys_setKV {α : Type} : ∀ (l : List (String × α)) (k x : String) (v : α),
    x ∈ (setKV l k v).map Prod.fst ↔ x = k ∨ x ∈ l.map Prod.fst
  | [], k, x, v => by simp [setKV]
  | (a, b) :: rest, k, x, v => by
    by_cases ha : a = k
    · subst ha
      simp [setKV]
    · simp only [setKV, if_neg ha, List.map_cons, List.mem_cons,
        mem_keys_setKV rest k x v]
      tauto

theorem nodupKeys_setKV {α : Type} : ∀ (l : List (String × α)) (k : String) (v : α),
    NodupKeys l → NodupKeys (setKV l k v)
  | [], k, v, _ => by simp [NodupKeys, setKV]
  | (a, b) :: rest, k, v, h => by
    simp only [NodupKeys, List.map_cons, List.nodup_cons] at h
    by_cases ha : a = k
    · subst ha
      simpa [NodupKeys, setKV, List.nodup_cons] using h
    · have hrec := nodupKeys_setKV rest k v h.2
      simp only [NodupKeys, setKV, if_neg ha, List.map_cons, List.nodup_cons]
      refine ⟨?_, hrec⟩
      rw [mem_keys_setKV]
      rintro (rfl | hmem)
      · exact ha rfl
      · exact h.1 hmem

/-- The resolution step on a string-valued `pp` flag, written out. -/
theorem resolve_xc_of_pp_str (flags : Flags) (p : String)
    (hp : getKV flags "pp" = some (.str p)) :
    resolve_xc flags =
      .ok (if strLower p = "lda" then setKV flags "xc" (.str "lda")
           else if strLower p = "pbe" then setKV flags "xc" (.str "PBE")
           else flags) := by
  unfold resolve_xc
  rw [hp]
  show (if strLower p = "lda" then Except.ok (setKV flags "xc" (VaspValue.str "lda"))
        else if strLower p = "pbe" then Except.ok (setKV flags "xc" (VaspValue.str "PBE"))
        else Except.ok flags) = _
  split_ifs <;> rfl

/-- The only two shapes a successful pseudopotential-family resolution
can produce: the flags unchanged, or the flags with `xc` assigned. -/
theorem resolve_xc_ok_shape (flags flags1 : Flags)
    (h : resolve_xc flags = .ok flags1) :
    flags1 = flags ∨ ∃ val, flags1 = setKV flags "xc" val := by
  unfold resolve_xc at h
  split at h
  · exact absurd h (by simp)
  · exact absurd h (by simp)
  · split_ifs at h
    · exact Or.inr ⟨_, (Except.ok.inj h).symm⟩
    · exact Or.inr ⟨_, (Except.ok.inj h).symm⟩
    · exact Or.inl (Except.ok.inj h).symm

/-- The success equation of `_clean_up_vasp_inputs`: cell fixed, family
resolved, `VASP_PP_PATH` assigned, `pp_version` deleted. -/
theorem clean_up_eq (atoms : Atoms) (flags : Flags) (env : Env) (flags1 : Flags)
    (hrx : resolve_xc flags = .ok flags1) (v : VaspValue)
    (hpv : getKV flags1 "pp_version" = some v) (b : String)
    (hb : getKV env "VASP_PP_BASE" = some b) :
    clean_up_vasp_inputs atoms flags env =
      .ok ({ atoms with cell := fixCell atoms.cell },
           delKV flags1 "pp_version",
           setKV env "VASP_PP_PATH" (b ++ "/" ++ v.toStr ++ "/")) := by
  simp only [clean_up_vasp_inputs, hrx, hpv, hb]

/-- Inverting a successful `_clean_up_vasp_inputs` run. -/
theorem clean_up_ok_inv (atoms : Atoms) (flags : Flags) (env : Env)
    (a' : Atoms) (f' : Flags) (e' : Env)
    (h : clean_up_vasp_inputs atoms flags env = .ok (a', f', e')) :
    ∃ flags1 pv b, resolve_xc flags = .ok flags1 ∧
      getKV flags1 "pp_version" = some pv ∧
      getKV env "VASP_PP_BASE" = some b ∧
      f' = delKV flags1 "pp_version" := by
  simp only [clean_up_vasp_inputs] at h
  split at h
  · exact absurd h (by simp)
  · rename_i flags1 heq
    split at h
    · exact absurd h (by simp)
    · rename_i pv hpv
      split at h
      · exact absurd h (by simp)
      · rename_i b hb
        simp only [Except.ok.injEq, Prod.mk.injEq] at h
        exact ⟨flags1, pv, b, heq, hpv, hb, h.2.1.symm⟩

/-- Claim C5: the `fmax` threshold handed to the BFGS optimizer by the
fallback driver is exactly the `ediffg` entry of the parameter mapping
when present, and 0.05 (= 1/20) when absent. -/
theorem relax_with_ase_fmax (E : Engine) (atoms : Atoms) (flags : Flags) (st : St) :
    (relax_with_ase E atoms flags st).2.calls =
      st.calls ++ [DriverCall.ase ((getKV flags "ediffg").getD (.num (1 / 20)))] := by
  have h1 : aseFmax (setKV (setKV flags "ibrion" (.num 2)) "nsw" (.num 0))
      = (getKV flags "ediffg").getD (.num (1 / 20)) := by
    unfold aseFmax
    rw [getKV_setKV_ne _ _ _ _ (by decide), getKV_setKV_ne _ _ _ _ (by decide)]
    cases getKV flags "ediffg" <;> rfl
  simp [relax_with_ase, h1]

/-- Claim C6: after normalization with pseudopotential version `v` in
the flags and `VASP_PP_BASE` bound to `b` in the environment,
`VASP_PP_PATH` is bound to `b ++ "/" ++ v ++ "/"`. -/
theorem clean_up_sets_pp_path (atoms : Atoms) (flags : Flags) (env : Env)
    (p v b : String)
    (hp : getKV flags "pp" = some (.str p))
    (hv : getKV flags "pp_version" = some (.str v))
    (hb : getKV env "VASP_PP_BASE" = some b) :
    ∃ a' f' e', clean_up_vasp_inputs atoms flags env = .ok (a', f', e') ∧
      getKV e' "VASP_PP_PATH" = some (b ++ "/" ++ v ++ "/") := by
  have hrx := resolve_xc_of_pp_str flags p hp
  have hpv : getKV (if strLower p = "lda" then setKV flags "xc" (.str "lda")
      else if strLower p = "pbe" then setKV flags "xc" (.str "PBE")
      else flags) "pp_version" = some (VaspValue.str v) := by
    split_ifs
    · rw [getKV_setKV_ne _ _ _ _ (by decide)]; exact hv
    · rw [getKV_setKV_ne _ _ _ _ (by decide)]; exact hv
    · exact hv
  refine ⟨_, _, _, clean_up_eq atoms flags env _ hrx _ hpv b hb, ?_⟩
  rw [getKV_setKV_self]
  rfl

/-- Claim C10: a successful normalization always removes `pp_version`
from the flags, and removes nothing else: every other key present
before is still present after. -/
theorem clean_up_removes_only_pp_version (atoms : Atoms) (flags : Flags) (env : Env)
    (a' : Atoms) (f' : Flags) (e' : Env)
    (hnd : NodupKeys flags)
    (h : clean_up_vasp_inputs atoms flags env = .ok (a', f', e')) :
    getKV f' "pp_version" = none ∧
    ∀ k, k ≠ "pp_version" → (getKV flags k).isSome → (getKV f' k).isSome := by
  obtain ⟨flags1, pv, b, hrx, hpv, hb, hf⟩ := clean_up_ok_inv atoms flags env a' f' e' h
  subst hf
  have hnd1 : NodupKeys flags1 := by
    rcases resolve_xc_ok_shape flags flags1 hrx with rfl | ⟨val, rfl⟩
    · exact hnd
    · exact nodupKeys_setKV flags "xc" val hnd
  refine ⟨getKV_delKV_self flags1 "pp_version" hnd1, ?_⟩
  intro k hk hsome
  rw [getKV_delKV_ne flags1 "pp_version" k hk]
  rcases resolve_xc_ok_shape flags flags1 hrx with rfl | ⟨val, rfl⟩
  · exact hsome
  · by_cases hxc : k = "xc"
    · subst hxc
      rw [getKV_setKV_self]
      rfl
    · rw [getKV_setKV_ne _ _ _ _ hxc]
      exact hsome

/-! ## Driver and orchestration lemmas -/

/-- A successful normalization only rewrites the cell; the constraint
set is untouched. -/
theorem clean_up_ok_atoms (atoms : Atoms) (flags : Flags) (env : Env)
    (a' : Atoms) (f' : Flags) (e' : Env)
    (h : clean_up_vasp_inputs atoms flags env = .ok (a', f', e')) :
    a' = { atoms with cell := fixCell atoms.cell } := by
  simp only [clean_up_vasp_inputs] at h
  split at h
  · exact absurd h (by simp)
  · split at h
    · exact absurd h (by simp)
    · split at h
      · exact absurd h (by simp)
      · simp only [Except.ok.injEq, Prod.mk.injEq] at h
        exact h.1.symm

/-- Inverting a successful run of the engine-native driver. -/
theorem relax_with_vasp_ok_inv (E : Engine) (atoms : Atoms) (flags : Flags)
    (st : St) (img : Atoms) (st' : St)
    (h : relax_with_vasp E atoms flags st = .ok (img, st')) :
    st' = { st with fs := appendTraj st.fs "all.traj" (E.vaspTraj atoms flags),
                    calls := st.calls ++ [DriverCall.vasp] } ∧
    (E.vaspTraj atoms flags).getLast? = some img := by
  simp only [relax_with_vasp] at h
  split at h
  · exact absurd h (by simp)
  · rename_i last hl
    simp only [Except.ok.injEq, Prod.mk.injEq] at h
    exact ⟨h.2.symm, by rw [hl, h.1]⟩

/-- The call trace the fallback driver leaves behind. -/
theorem relax_with_ase_state (E : Engine) (atoms : Atoms) (flags : Flags) (st : St) :
    (relax_with_ase E atoms flags st).2 =
      { st with
          fs := setKV st.fs "all.traj"
            (E.aseRun atoms (setKV (setKV flags "ibrion" (.num 2)) "nsw" (.num 0))
              (aseFmax (setKV (setKV flags "ibrion" (.num 2)) "nsw" (.num 0)))).1,
          calls := st.calls ++ [DriverCall.ase
            (aseFmax (setKV (setKV flags "ibrion" (.num 2)) "nsw" (.num 0)))] } := rfl

/-- Claim C1: whenever `_perform_relaxation` completes, the driver that
ran is the engine-native (VASP) one exactly when every constraint kind
of the input structure is in the allow-list, and the ASE/BFGS fallback
otherwise. -/
theorem perform_relaxation_driver (E : Engine) (atoms : Atoms) (flags : Flags)
    (fname_out : String) (st : St) (img : Atoms) (st' : St)
    (h : perform_relaxation E atoms flags fname_out st = .ok (img, st')) :
    (vaspCompatible atoms.constraints = true →
      st'.calls = st.calls ++ [DriverCall.vasp]) ∧
    (vaspCompatible atoms.constraints = false →
      ∃ m, st'.calls = st.calls ++ [DriverCall.ase m]) := by
  simp only [perform_relaxation] at h
  split at h
  · exact absurd h (by simp)
  · rename_i atoms1 flags1 env1 heq
    have hcon : atoms1.constraints = atoms.constraints := by
      rw [clean_up_ok_atoms atoms flags st.env atoms1 flags1 env1 heq]
    split at h
    · exact absurd h (by simp)
    · rename_i flags2 _
      split at h
      · exact absurd h (by simp)
      · rename_i flags3 _
        by_cases hc : vaspCompatible atoms1.constraints
        · rw [if_pos hc] at h
          split at h
          · exact absurd h (by simp)
          · rename_i r hr
            simp only [Except.ok.injEq] at h
            have hst : st' = (finish_relaxation fname_out r).2 :=
              (congrArg Prod.snd h).symm
            have hcalls : st'.calls = r.2.calls := by rw [hst]; rfl
            have hrv := relax_with_vasp_ok_inv E atoms1 flags3 _ r.1 r.2 hr
            constructor
            · intro _
              rw [hcalls, hrv.1]
            · intro hfalse
              rw [hcon] at hc
              rw [hc] at hfalse
              exact absurd hfalse (by simp)
        · rw [if_neg hc] at h
          split at h
          · rename_i e hfalse
            exact absurd hfalse (by simp)
          · rename_i r hr
            simp only [Except.ok.injEq] at h
            have hst : st' = (finish_relaxation fname_out r).2 :=
              (congrArg Prod.snd h).symm
            have hcalls : st'.calls = r.2.calls := by rw [hst]; rfl
            have hrr : r = relax_with_ase E atoms1 flags3 { st with env := env1 } :=
              (Except.ok.inj hr).symm
            constructor
            · intro htrue
              rw [hcon] at hc
              exact absurd htrue hc
            · intro _
              refine ⟨aseFmax (setKV (setKV flags3 "ibrion" (.num 2)) "nsw" (.num 0)), ?_⟩
              rw [hcalls, hrr, relax_with_ase_state]

/-- Claim C7: with `VASP_PP_BASE` absent from the environment (and a
well-formed `pp` flag), the normalizer fails with a missing-key
`KeyError`, and the failure is the same for every engine: no
relaxation driver and no calculator is ever invoked. -/
theorem perform_fails_without_pp_base (atoms : Atoms) (flags : Flags)
    (fname_out : String) (st : St)
    (hb : getKV st.env "VASP_PP_BASE" = none)
    (hpp : getKV flags "pp" = none ∨ ∃ p, getKV flags "pp" = some (.str p)) :
    ∃ k, ∀ E : Engine,
      perform_relaxation E atoms flags fname_out st = .error (.keyError k) := by
  rcases hpp with hnone | ⟨p, hp⟩
  · refine ⟨"pp", fun E => ?_⟩
    have hrx : resolve_xc flags = .error (.keyError "pp") := by
      simp [resolve_xc, hnone]
    simp only [perform_relaxation, clean_up_vasp_inputs, hrx]
  · obtain ⟨flags1, hrx⟩ : ∃ f1, resolve_xc flags = .ok f1 :=
      ⟨_, resolve_xc_of_pp_str flags p hp⟩
    cases hpv : getKV flags1 "pp_version" with
    | none =>
      refine ⟨"pp_version", fun E => ?_⟩
      simp only [perform_relaxation, clean_up_vasp_inputs, hrx, hpv]
    | some v =>
      refine ⟨"VASP_PP_BASE", fun E => ?_⟩
      simp only [perform_relaxation, clean_up_vasp_inputs, hrx, hpv, hb]

/-- The trajectory file always holds the driver-provided images as a
suffix after the engine-native driver appends them. -/
theorem getKV_appendTraj_self (fs : FS) (f : String) (imgs : List Atoms) :
    ∃ pre, getKV (appendTraj fs f imgs) f = some (pre ++ imgs) := by
  unfold appendTraj
  cases h : getKV fs f with
  | none => exact ⟨[], by simp [getKV_setKV_self]⟩
  | some old => exact ⟨old, by simp [getKV_setKV_self]⟩

/-- After a completed `_perform_relaxation`, the file at `fname_out`
holds exactly the returned image, and that image is the last snapshot
of the `all.traj` trajectory file. -/
theorem perform_relaxation_final (E : Engine) (hE : AseFinalIsLast E)
    (atoms : Atoms) (flags : Flags) (fname_out : String) (st : St)
    (img : Atoms) (st' : St)
    (h : perform_relaxation E atoms flags fname_out st = .ok (img, st')) :
    getKV st'.fs fname_out = some [img] ∧
    ∃ traj, getKV st'.fs "all.traj" = some traj ∧ traj.getLast? = some img := by
  simp only [perform_relaxation] at h
  split at h
  · exact absurd h (by simp)
  · rename_i atoms1 flags1 env1 heq
    split at h
    · exact absurd h (by simp)
    · rename_i flags2 _
      split at h
      · exact absurd h (by simp)
      · rename_i flags3 _
        by_cases hc : vaspCompatible atoms1.constraints
        · rw [if_pos hc] at h
          split at h
          · exact absurd h (by simp)
          · rename_i r hr
            simp only [Except.ok.injEq] at h
            have himg : img = r.1 := (congrArg Prod.fst h).symm
            have hst : st' = (finish_relaxation fname_out r).2 :=
              (congrArg Prod.snd h).symm
            have hrv := relax_with_vasp_ok_inv E atoms1 flags3 _ r.1 r.2 hr
            have hfs : st'.fs = setKV r.2.fs fname_out [r.1] := by rw [hst]; rfl
            subst himg
            refine ⟨by rw [hfs, getKV_setKV_self], ?_⟩
            by_cases hfo : fname_out = "all.traj"
            · subst hfo
              exact ⟨[r.1], by rw [hfs, getKV_setKV_self], rfl⟩
            · obtain ⟨pre, hpre⟩ :=
                getKV_appendTraj_self ({ st with env := env1 } : St).fs "all.traj"
                  (E.vaspTraj atoms1 flags3)
              have himgs : (E.vaspTraj atoms1 flags3) ≠ [] := by
                intro hemp
                rw [hemp] at hrv
                exact absurd hrv.2 (by simp)
              refine ⟨pre ++ E.vaspTraj atoms1 flags3, ?_, ?_⟩
              · rw [hfs, getKV_setKV_ne _ _ _ _ (fun hh => hfo hh.symm), hrv.1]
                exact hpre
              · rw [List.getLast?_append_of_ne_nil _ himgs]
                exact hrv.2
        · rw [if_neg hc] at h
          split at h
          · rename_i e hfalse
            exact absurd hfalse (by simp)
          · rename_i r hr
            simp only [Except.ok.injEq] at h
            have himg : img = r.1 := (congrArg Prod.fst h).symm
            have hst : st' = (finish_relaxation fname_out r).2 :=
              (congrArg Prod.snd h).symm
            have hrr : r = relax_with_ase E atoms1 flags3 { st with env := env1 } :=
              (Except.ok.inj hr).symm
            have hfs : st'.fs = setKV r.2.fs fname_out [r.1] := by rw [hst]; rfl
            subst himg
            refine ⟨by rw [hfs, getKV_setKV_self], ?_⟩
            by_cases hfo : fname_out = "all.traj"
            · subst hfo
              exact ⟨[r.1], by rw [hfs, getKV_setKV_self], rfl⟩
            · refine ⟨(E.aseRun atoms1
                (setKV (setKV flags3 "ibrion" (.num 2)) "nsw" (.num 0))
                (aseFmax (setKV (setKV flags3 "ibrion" (.num 2)) "nsw" (.num 0)))).1,
                ?_, ?_⟩
              · rw [hfs, getKV_setKV_ne _ _ _ _ (fun hh => hfo hh.symm), hrr,
                  relax_with_ase_state, getKV_setKV_self]
              · have hlast := hE atoms1
                  (setKV (setKV flags3 "ibrion" (.num 2)) "nsw" (.num 0))
                  (aseFmax (setKV (setKV flags3 "ibrion" (.num 2)) "nsw" (.num 0)))
                rw [hlast, hrr]
                rfl

/-- Claim C4: whenever `runVasp` completes, the structure written to
the caller-specified output path is the final snapshot of the
`all.traj` trajectory, and the returned energy is the potential energy
of that same final snapshot. -/
theorem runVasp_final_snapshot (E : Engine) (hE : AseFinalIsLast E)
    (fname_in fname_out : String) (flags : Flags) (st : St)
    (astr : String) (hx : List Char) (en : ℚ) (st' : St)
    (h : runVasp E fname_in fname_out flags st = .ok ((astr, hx, en), st')) :
    ∃ traj finalImage, getKV st'.fs "all.traj" = some traj ∧
      traj.getLast? = some finalImage ∧
      getKV st'.fs fname_out = some [finalImage] ∧
      en = finalImage.energy := by
  simp only [runVasp] at h
  split at h
  · exact absurd h (by simp)
  · rename_i imgs _
    split at h
    · exact absurd h (by simp)
    · rename_i atoms _
      split at h
      · exact absurd h (by simp)
      · rename_i pr hpr
        split at h
        · exact absurd h (by simp)
        · rename_i traj htraj
          simp only [Except.ok.injEq, Prod.mk.injEq] at h
          obtain ⟨⟨-, -, hen⟩, hst⟩ := h
          have hfin := perform_relaxation_final E hE atoms flags fname_out st
            pr.1 pr.2 hpr
          obtain ⟨hout, traj1, htraj1, hlast1⟩ := hfin
          refine ⟨traj1, pr.1, ?_, hlast1, ?_, ?_⟩
          · rw [← hst]
            exact htraj1
          · rw [← hst]
            exact hout
          · exact hen.symm

/-! ## Concrete inputs for the witnesses -/

def cell0 : Cell := ((1, 0, 0), (0, 1, 0), (0, 0, 1))

def atoms0 : Atoms :=
  { cell := cell0, constraints := ["FixAtoms"], energy := 0, tag := 0 }

def engine0 : Engine :=
  { intFloat := fun _ => .ok 1
    vaspTraj := fun a _ => [{ a with energy := 5, tag := 1 }]
    aseRun := fun a _ _ => ([{ a with tag := 2 }], { a with tag := 2 })
    serializeTraj := fun _ => []
    strRepr := fun _ => "Atoms" }

def flags0 : Flags :=
  [("pp", .str "pbe"), ("pp_version", .str "5.4"), ("ediffg", .num (3 / 100))]

def env0 : Env := [("VASP_PP_BASE", "/pp")]

def st0 : St := { env := env0, fs := [("init.traj", [atoms0])], calls := [] }

def img1 : Atoms := { atoms0 with energy := 5, tag := 1 }

def st1 : St :=
  { env := [("VASP_PP_BASE", "/pp"), ("VASP_PP_PATH", "/pp/5.4/")],
    fs := [("init.traj", [atoms0]), ("all.traj", [img1]), ("out.traj", [img1])],
    calls := [DriverCall.vasp] }

def f1w : Flags :=
  [("pp", .str "pbe"), ("ediffg", .num (3 / 100)), ("xc", .str "PBE")]

def e1w : Env := [("VASP_PP_BASE", "/pp"), ("VASP_PP_PATH", "/pp/5.4/")]

def stNoBase : St := { env := [], fs := [], calls := [] }

/-! ## Witnesses -/

theorem perform_relaxation_driver_witness :
    perform_relaxation engine0 atoms0 flags0 "out.traj" st0 = .ok (img1, st1) ∧
    st1.calls = st0.calls ++ [DriverCall.vasp] := by
  have hsl : strLower "pbe" = "pbe" := rfl
  have h : perform_relaxation engine0 atoms0 flags0 "out.traj" st0 = .ok (img1, st1) := by
    norm_num +decide [perform_relaxation, clean_up_vasp_inputs, resolve_xc, getKV,
      setKV, delKV, envIntFlag, vaspCompatible, allowable_constraints,
      relax_with_vasp, appendTraj, finish_relaxation,
      fixCell, tripleProd, dot3, cross3, engine0, atoms0, cell0, flags0, env0,
      st0, img1, st1, VaspValue.toStr, hsl]
  exact ⟨h, (perform_relaxation_driver engine0 atoms0 flags0 "out.traj" st0
    img1 st1 h).1 (by decide)⟩

theorem runVasp_final_snapshot_witness :
    ∃ traj finalImage, getKV st1.fs "all.traj" = some traj ∧
      traj.getLast? = some finalImage ∧
      getKV st1.fs "out.traj" = some [finalImage] ∧
      (5 : ℚ) = finalImage.energy := by
  have hsl : strLower "pbe" = "pbe" := rfl
  have h : runVasp engine0 "init.traj" "out.traj" flags0 st0 =
      .ok (("Atoms", [], 5), st1) := by
    norm_num +decide [runVasp, perform_relaxation, clean_up_vasp_inputs, resolve_xc,
      getKV, setKV, delKV, envIntFlag, vaspCompatible, allowable_constraints,
      relax_with_vasp, appendTraj, finish_relaxation, hexlify,
      fixCell, tripleProd, dot3, cross3, engine0, atoms0, cell0, flags0, env0,
      st0, img1, st1, VaspValue.toStr, hsl]
  exact runVasp_final_snapshot engine0 (fun a f m => rfl) "init.traj" "out.traj"
    flags0 st0 "Atoms" [] 5 st1 h

theorem clean_up_sets_pp_path_witness :
    ∃ a' f' e', clean_up_vasp_inputs atoms0 flags0 env0 = .ok (a', f', e') ∧
      getKV e' "VASP_PP_PATH" = some ("/pp" ++ "/" ++ "5.4" ++ "/") :=
  clean_up_sets_pp_path atoms0 flags0 env0 "pbe" "5.4" "/pp"
    (by decide) (by decide) (by decide)

theorem perform_fails_without_pp_base_witness :
    ∃ k, ∀ E : Engine,
      perform_relaxation E atoms0 flags0 "out.traj" stNoBase = .error (.keyError k) :=
  perform_fails_without_pp_base atoms0 flags0 "out.traj" stNoBase rfl
    (Or.inr ⟨"pbe", by decide⟩)

theorem clean_up_removes_only_pp_version_witness :
    getKV f1w "pp_version" = none ∧
    ∀ k, k ≠ "pp_version" → (getKV flags0 k).isSome → (getKV f1w k).isSome := by
  have hsl : strLower "pbe" = "pbe" := rfl
  have h : clean_up_vasp_inputs atoms0 flags0 env0 = .ok (atoms0, f1w, e1w) := by
    norm_num +decide [clean_up_vasp_inputs, resolve_xc, getKV, setKV, delKV,
      fixCell, tripleProd, dot3, cross3, atoms0, cell0, flags0, env0, f1w, e1w,
      VaspValue.toStr, hsl]
  exact clean_up_removes_only_pp_version atoms0 flags0 env0 atoms0 f1w e1w
    (by decide) h

end Gaspy
